import Mathlib

/-!
Shallow embedding of the cellulite hierarchical geospatial index
(`src/lib.rs`): the key/value data model (Item, Cell, InnerShape
namespaces stored in one map), `Writer::add_item` with its adaptive
refinement loop, `Writer::in_shape` with its traversal and double-check
phase, and `Writer::stats`.

The external collaborators (the `geo` geometry predicates and the `h3o`
hexagonal grid: `LatLng::to_cell`, `dissolve`, tiling, `intersection`)
are modelled as an abstract environment `GeoEnv` of total functions over
abstract cell / point / polygon types; concrete instantiations are given
for witnesses and counterexamples.  The store (heed/LMDB) is modelled as
three association lists with overwrite-on-put semantics, one per key
namespace: the key codec partitions the keyspace by a leading tag byte,
so prefix iteration over one tag enumerates exactly that namespace.

Rust panics (todo / unreachable / unwrap-on-None / the explicit line
panic) are modelled as an `Except` error distinct from the constructors
of the library error enum `Error`; functions that can abort return the
database state reached at the abort point, matching the writes issued
to the write transaction up to that point.  The unbounded `while let`
loops are modelled with an explicit fuel parameter; exhausted fuel is
`none` and is distinguished from genuine outcomes.
-/

namespace Cellulite

/-- Item identifiers are externally supplied u32 values, treated as opaque. -/
abbrev ItemId := Nat

/-- A RoaringBitmap of item ids: a finite set of u32 values supporting
insert, membership, cardinality and sorted iteration. -/
abbrev Bitmap := Finset ItemId

/-- The `geo_types::Geometry` enum restricted to what the code matches on.
Point and polygon payloads are abstract (`P`, `Po`); the line family,
Rect, Triangle and GeometryCollection never have their payloads inspected
by the code, so they carry none here. -/
inductive Geom (P Po : Type) where
  | point (p : P)
  | multiPoint (ps : List P)
  | polygon (g : Po)
  | multiPolygon (gs : List Po)
  | rect
  | triangle
  | geometryCollection
  | line
  | lineString
  | multiLineString
  deriving DecidableEq

/-- The outcomes of a fallible call: the three constructors of the
`Error` enum in `lib.rs` (heed storage faults, invalid coordinates,
invalid geometry), plus `panicked`, which models a Rust panic
(`todo`, `unreachable`, `Option::unwrap` on `None`, and the explicit
line panic).  Note the enum has no variant for unsupported lines. -/
inductive RustError where
  | heed
  | invalidLatLng
  | invalidGeometry
  | panicked (msg : String)
  deriving DecidableEq

instance {ε α : Type} [DecidableEq ε] [DecidableEq α] : DecidableEq (Except ε α) :=
  fun x y =>
    match x, y with
    | .ok a, .ok b =>
        if h : a = b then isTrue (congrArg Except.ok h)
        else isFalse fun hc => h (Except.ok.inj hc)
    | .error a, .error b =>
        if h : a = b then isTrue (congrArg Except.error h)
        else isFalse fun hc => h (Except.error.inj hc)
    | .ok _, .error _ => isFalse fun hc => Except.noConfusion hc
    | .error _, .ok _ => isFalse fun hc => Except.noConfusion hc

/-- The operations the code needs from the `h3o` grid and the `geo`
predicates, as total functions.  Resolutions are naturals; the grid
maximum is 15 (`Resolution::Fifteen`).  `tileMulti` models a
`TilerBuilder` in `Covers` containment mode to which each polygon of the
list is `add`ed before `into_coverage` is taken. -/
structure GeoEnv (C P Po : Type) where
  latLngToCell : P → Nat → C
  dissolve : C → Po
  resolution : C → Nat
  polyContainsPoly : Po → Po → Bool
  multiPolyContainsPoly : List Po → Po → Bool
  polyContainsPoint : Po → P → Bool
  polyIntersectsPoly : Po → Po → Bool
  tileMulti : List Po → Nat → List C
  intersectPieces : Po → Po → List Po

/-- `Resolution::succ`: `some (r+1)` below the grid maximum of 15,
`none` at the maximum. -/
def resSucc (r : Nat) : Option Nat :=
  if r < 15 then some (r + 1) else none

/-- First-match lookup in an association list (the store's `get`). -/
def assocGet {κ β : Type} [DecidableEq κ] : List (κ × β) → κ → Option β
  | [], _ => none
  | (k, v) :: rest, key => if k = key then some v else assocGet rest key

/-- Overwrite-or-append in an association list (the store's `put`). -/
def assocPut {κ β : Type} [DecidableEq κ] : List (κ × β) → κ → β → List (κ × β)
  | [], key, val => [(key, val)]
  | (k, v) :: rest, key, val =>
      if k = key then (key, val) :: rest else (k, v) :: assocPut rest key val

/-- The store contents, split by key namespace: the `Item` records,
the `Cell` bitmaps and the `InnerShape` bitmaps.  The key codec's tag
byte partitions the real single map into exactly these three. -/
structure DB (C P Po : Type) where
  items : List (ItemId × Geom P Po)
  cellDb : List (C × Bitmap)
  innerDb : List (C × Bitmap)
  deriving DecidableEq

/-- The empty database. -/
def emptyDB (C P Po : Type) : DB C P Po := ⟨[], [], []⟩

/-- `Writer::item`: look up the stored geometry for an id. -/
def itemLookup {C P Po : Type} (db : DB C P Po) (item : ItemId) : Option (Geom P Po) :=
  assocGet db.items item

/-- The `shape.contains(cell_polygon)` test of the refinement loop
(line 126): `geo::Contains` dispatched on the `Geometry` enum.  For a
Point or MultiPoint, a nondegenerate cell-boundary polygon is never
contained, so the result is `false`; only polygonal geometries consult
the environment.  The remaining variants cannot reach this test: the
level-zero explosion panics on them before any entry is enqueued. -/
def geomContainsPoly {C P Po : Type} (env : GeoEnv C P Po) : Geom P Po → Po → Bool
  | .polygon g, po => env.polyContainsPoly g po
  | .multiPolygon gs, po => env.multiPolyContainsPoly gs po
  | _, _ => false

/-- A work entry of the refinement queue: `(item id, shape, cell)`. -/
abbrev Entry (C P Po : Type) := ItemId × Geom P Po × C

/-- RoaringBitmap iteration: the elements in ascending order.  Defined
by insertion sort on the underlying multiset, which is well defined
because permutations have equal sorted forms. -/
def sortBitmap (s : Bitmap) : List ItemId :=
  Quot.liftOn s.val (List.insertionSort (· ≤ ·)) fun a b h =>
    List.eq_of_perm_of_sorted
      ((List.perm_insertionSort _ a).trans
        (List.Perm.trans h (List.perm_insertionSort _ b).symm))
      (List.sorted_insertionSort _ a) (List.sorted_insertionSort _ b)

theorem mem_sortBitmap_iff {a : ItemId} {s : Bitmap} :
    a ∈ sortBitmap s ↔ a ∈ s := by
  rcases s with ⟨val, nd⟩
  induction val using Quot.ind with
  | mk l =>
    show a ∈ List.insertionSort (· ≤ ·) l ↔ _
    rw [List.Perm.mem_iff (List.perm_insertionSort _ l)]
    simp [Finset.mem_mk, Multiset.mem_coe]

/-- Re-enqueue the current item at the next finer resolution (lines
150-177 of `add_item`): a point goes to the single cell containing it,
a polygon to the `Covers` tiling of the full polygon; every other
variant is a panic (`todo` for shapes that should have been exploded,
`unreachable` for the rest). -/
def reEnqueueSelf {C P Po : Type} (env : GeoEnv C P Po) (item : ItemId)
    (shape : Geom P Po) (nextRes : Nat) : Except RustError (List (Entry C P Po)) :=
  match shape with
  | .point p => .ok [(item, .point p, env.latLngToCell p nextRes)]
  | .polygon g =>
      .ok ((env.tileMulti [g] nextRes).map fun c => (item, .polygon g, c))
  | .multiPoint _ | .multiPolygon _ | .rect | .triangle =>
      .error (.panicked "Received a shape that should have been exploded already")
  | _ => .error (.panicked "entered unreachable code")

/-- Re-enqueue the portions of one existing occupant that fall inside
the split cell (lines 188-253): a point goes to its next-resolution
cell, a multi-point keeps only its points inside the cell polygon, a
polygon is clipped against the cell polygon and the pieces are tiled
together — but the entries carry the full original polygon, not the
clipped pieces — and a multi-polygon does the same per constituent,
carrying the constituent.  Any other stored variant is a `todo` panic. -/
def splitOccupant {C P Po : Type} (env : GeoEnv C P Po) (cellPolygon : Po)
    (nextRes : Nat) (item : ItemId) (shape : Geom P Po) :
    Except RustError (List (Entry C P Po)) :=
  match shape with
  | .point p => .ok [(item, .point p, env.latLngToCell p nextRes)]
  | .multiPoint ps =>
      .ok ((ps.filter fun p => env.polyContainsPoint cellPolygon p).map
        fun p => (item, .point p, env.latLngToCell p nextRes))
  | .polygon g =>
      let pieces := env.intersectPieces g cellPolygon
      if pieces.isEmpty then .ok []
      else .ok ((env.tileMulti pieces nextRes).map fun c => (item, .polygon g, c))
  | .multiPolygon gs =>
      .ok ((gs.map fun g =>
        let pieces := env.intersectPieces g cellPolygon
        if pieces.isEmpty then []
        else (env.tileMulti pieces nextRes).map fun c => (item, .polygon g, c)).flatten)
  | _ => .error (.panicked "not yet implemented")

/-- The split-existing-occupants loop (lines 179-255): iterate the
post-insertion bitmap in ascending id order, skip the current item,
re-read each occupant's stored geometry (an `unwrap` that panics if the
record is missing) and collect its re-enqueued entries. -/
def splitOccupants {C P Po : Type} [DecidableEq C] (env : GeoEnv C P Po)
    (db : DB C P Po) (cellPolygon : Po) (nextRes : Nat) (currentItem : ItemId)
    (bitmap : Bitmap) : Except RustError (List (Entry C P Po)) :=
  (sortBitmap bitmap).foldlM
    (fun acc item =>
      if item = currentItem then .ok acc
      else
        match assocGet db.items item with
        | none => .error (.panicked "called Option::unwrap on a None value")
        | some shape => do
            let es ← splitOccupant env cellPolygon nextRes item shape
            .ok (acc ++ es))
    []

/-- One iteration of the refinement loop of `add_item` (lines 118-257).
Dissolve the cell; if the shape fully contains the cell polygon, record
the item in `InnerShape(cell)` and stop (inner-shape short-circuit).
Otherwise capture `already_splitted` as whether the cell bitmap already
held at least `threshold` items, insert the item, persist the bitmap;
at maximum resolution stop; if the bitmap now holds at least `threshold`
items, re-enqueue the item at the next resolution and, exactly when
`already_splitted` was false, also re-enqueue the other occupants.
Returns the database after the writes of this iteration together with
either the entries to push (FIFO order: self first, then occupants) or
the panic that aborted the iteration. -/
def refineStep {C P Po : Type} [DecidableEq C] (env : GeoEnv C P Po)
    (threshold : Nat) (db : DB C P Po) :
    Entry C P Po → DB C P Po × Except RustError (List (Entry C P Po))
  | (currentItem, shape, cell) =>
    let cellPolygon := env.dissolve cell
    if geomContainsPoly env shape cellPolygon then
      let bitmap := (assocGet db.innerDb cell).getD ∅
      ({ db with innerDb := assocPut db.innerDb cell (insert currentItem bitmap) },
        .ok [])
    else
      let bitmap0 := (assocGet db.cellDb cell).getD ∅
      let alreadySplitted := threshold ≤ bitmap0.card
      let bitmap := insert currentItem bitmap0
      let db' := { db with cellDb := assocPut db.cellDb cell bitmap }
      match resSucc (env.resolution cell) with
      | none => (db', .ok [])
      | some nextRes =>
        if threshold ≤ bitmap.card then
          match reEnqueueSelf env currentItem shape nextRes with
          | .error e => (db', .error e)
          | .ok selfEntries =>
            if alreadySplitted then (db', .ok selfEntries)
            else
              match splitOccupants env db' cellPolygon nextRes currentItem bitmap with
              | .error e => (db', .error e)
              | .ok splitEntries => (db', .ok (selfEntries ++ splitEntries))
        else (db', .ok [])

/-- The FIFO drain of the refinement queue, with fuel.  `none` means the
fuel ran out; otherwise the result is the final database paired with
`none` on normal completion or the panic that aborted the loop (the
database then reflects the writes issued before the abort). -/
def refineLoop {C P Po : Type} [DecidableEq C] (env : GeoEnv C P Po)
    (threshold : Nat) :
    Nat → DB C P Po → List (Entry C P Po) → Option (DB C P Po × Option RustError)
  | _, db, [] => some (db, none)
  | 0, _, _ :: _ => none
  | fuel + 1, db, e :: rest =>
    match refineStep env threshold db e with
    | (db', .error err) => some (db', some err)
    | (db', .ok newEntries) => refineLoop env threshold fuel db' (rest ++ newEntries)

/-- The polygon case of the level-zero decomposition (lines 290-316):
tile the polygon at resolution 0; cells fully contained in the polygon
are written to `InnerShape` immediately, the others become work
entries carrying the full polygon. -/
def explodePolygon {C P Po : Type} [DecidableEq C] (env : GeoEnv C P Po)
    (db : DB C P Po) (item : ItemId) (g : Po) : DB C P Po × List (Entry C P Po) :=
  (env.tileMulti [g] 0).foldl
    (fun st cell =>
      let db := st.1
      let cellPolygon := env.dissolve cell
      if env.polyContainsPoly g cellPolygon then
        let bm := insert item ((assocGet db.innerDb cell).getD ∅)
        ({ db with innerDb := assocPut db.innerDb cell bm }, st.2)
      else (db, st.2 ++ [(item, .polygon g, cell)]))
    (db, [])

/-- `Writer::explode_level_zero_geo` (lines 263-337): the level-zero
decomposition into work entries at resolution 0.  A point maps to its
containing cell; a multi-point to one point entry per constituent; a
polygon per `explodePolygon`; a multi-polygon to the concatenation over
its constituents.  Rect, Triangle and GeometryCollection are `todo`
panics, and the line family hits the explicit line panic. -/
def explodeLevelZeroGeo {C P Po : Type} [DecidableEq C] (env : GeoEnv C P Po)
    (db : DB C P Po) (item : ItemId) :
    Geom P Po → DB C P Po × Except RustError (List (Entry C P Po))
  | .point p => (db, .ok [(item, .point p, env.latLngToCell p 0)])
  | .multiPoint ps =>
      (db, .ok (ps.map fun p => (item, .point p, env.latLngToCell p 0)))
  | .polygon g =>
      let st := explodePolygon env db item g
      (st.1, .ok st.2)
  | .multiPolygon gs =>
      let st := gs.foldl
        (fun st g =>
          let st' := explodePolygon env st.1 item g
          (st'.1, st.2 ++ st'.2))
        (db, ([] : List (Entry C P Po)))
      (st.1, .ok st.2)
  | .rect => (db, .error (.panicked "not yet implemented"))
  | .triangle => (db, .error (.panicked "not yet implemented"))
  | .geometryCollection => (db, .error (.panicked "not yet implemented"))
  | _ => (db, .error (.panicked "Doesnt support lines"))

/-- `Writer::add_item` (lines 112-261): convert the GeoJSON payload (a
total identification in this model), persist the `Item` record first,
run the level-zero decomposition, then drain the refinement queue.
`none` is exhausted fuel; otherwise the reached database state is
paired with `none` on success or with the panic that aborted the call. -/
def addItem {C P Po : Type} [DecidableEq C] (env : GeoEnv C P Po)
    (threshold fuel : Nat) (db : DB C P Po) (item : ItemId) (geo : Geom P Po) :
    Option (DB C P Po × Option RustError) :=
  let db1 := { db with items := assocPut db.items item geo }
  match explodeLevelZeroGeo env db1 item geo with
  | (db2, .error e) => some (db2, some e)
  | (db2, .ok entries) => refineLoop env threshold fuel db2 entries

/-- The observability events passed to the `inspector` callback of
`in_shape`. -/
inductive FilteringStep where
  | notPresentInDB
  | outsideOfShape
  | returned
  | requireDoubleCheck
  | deepDive
  deriving DecidableEq

/-- The state of the `in_shape` traversal when its loop finishes:
accepted ids, candidates for the double-check phase, the `too_large`
flag, and the sequence of inspector events in emission order. -/
structure LoopOut (C : Type) where
  ret : Bitmap
  doubleCheck : Bitmap
  tooLarge : Bool
  trace : List (FilteringStep × C)
  deriving DecidableEq

/-- The child-enqueueing fold of the deep-dive branch (lines 425-430):
each produced cell is pushed on the exploration queue exactly when it is
newly inserted into `already_explored`. -/
def enqueueChildren {C : Type} [DecidableEq C] (children : List C)
    (explored : Finset C) (queue : List C) : Finset C × List C :=
  children.foldl
    (fun st c => if c ∈ st.1 then st else (insert c st.1, st.2 ++ [c]))
    (explored, queue)

/-- The traversal loop of `Writer::in_shape` (lines 393-440), with fuel.
For each dequeued cell: absent from the `Cell` namespace means skip
(`NotPresentInDB`) — note the `InnerShape` namespace is never consulted;
a cell polygon contained in the query polygon accepts all its items
(`Returned`); an intersecting cell below the threshold or at maximum
resolution feeds the double-check set (`RequireDoubleCheck`); an
intersecting cell otherwise descends (`DeepDive`), tiling the query
polygon — or, once `too_large` is set, the dissolved cell — at the next
resolution, enqueueing new children, and setting `too_large` whenever
more than 3 children were produced; a disjoint cell is skipped
(`OutsideOfShape`). -/
def inShapeLoop {C P Po : Type} [DecidableEq C] (env : GeoEnv C P Po)
    (threshold : Nat) (db : DB C P Po) (polygon : Po) :
    Nat → List C → Finset C → Bool → Bitmap → Bitmap →
      List (FilteringStep × C) → Option (Except RustError (LoopOut C))
  | _, [], _, tooLarge, ret, dc, trace => some (.ok ⟨ret, dc, tooLarge, trace⟩)
  | 0, _ :: _, _, _, _, _, _ => none
  | fuel + 1, cell :: rest, explored, tooLarge, ret, dc, trace =>
    match assocGet db.cellDb cell with
    | none =>
        inShapeLoop env threshold db polygon fuel rest explored tooLarge ret dc
          (trace ++ [(.notPresentInDB, cell)])
    | some items =>
      let cellPolygon := env.dissolve cell
      if env.polyContainsPoly polygon cellPolygon then
        inShapeLoop env threshold db polygon fuel rest explored tooLarge
          (ret ∪ items) dc (trace ++ [(.returned, cell)])
      else if env.polyIntersectsPoly polygon cellPolygon then
        if items.card < threshold ∨ env.resolution cell = 15 then
          inShapeLoop env threshold db polygon fuel rest explored tooLarge ret
            (dc ∪ items) (trace ++ [(.requireDoubleCheck, cell)])
        else
          match resSucc (env.resolution cell) with
          | none => some (.error (.panicked "called Option::unwrap on a None value"))
          | some nextRes =>
            let children :=
              env.tileMulti [if tooLarge then cellPolygon else polygon] nextRes
            let st := enqueueChildren children explored rest
            let tooLarge' := if 3 < children.length then true else tooLarge
            inShapeLoop env threshold db polygon fuel st.2 st.1 tooLarge' ret dc
              (trace ++ [(.deepDive, cell)])
      else
        inShapeLoop env threshold db polygon fuel rest explored tooLarge ret dc
          (trace ++ [(.outsideOfShape, cell)])

/-- The per-item geometric verification of the double-check phase
(lines 445-488): a point is accepted when the query polygon contains its
coordinate; a multi-point when some constituent is contained; a polygon
when contained or intersecting; a multi-polygon when some constituent is
contained or intersecting.  Rect, Triangle and GeometryCollection panic
(`todo`), the line family is `unreachable`. -/
def doubleCheckAccept {C P Po : Type} (env : GeoEnv C P Po) (polygon : Po) :
    Geom P Po → Except RustError Bool
  | .point p => .ok (env.polyContainsPoint polygon p)
  | .multiPoint ps => .ok (ps.any fun p => env.polyContainsPoint polygon p)
  | .polygon g =>
      .ok (env.polyContainsPoly polygon g || env.polyIntersectsPoly polygon g)
  | .multiPolygon gs =>
      .ok (gs.any fun g =>
        env.polyContainsPoly polygon g || env.polyIntersectsPoly polygon g)
  | .rect | .triangle | .geometryCollection => .error (.panicked "not yet implemented")
  | _ => .error (.panicked "entered unreachable code")

/-- One candidate of the double-check phase: load its stored geometry
(an `unwrap` that panics when the record is missing) and insert the id
into the accumulated result when the per-kind test accepts it. -/
def doubleCheckStep {C P Po : Type} (env : GeoEnv C P Po) (db : DB C P Po)
    (polygon : Po) (acc : Bitmap) (item : ItemId) : Except RustError Bitmap :=
  match assocGet db.items item with
  | none => .error (.panicked "called Option::unwrap on a None value")
  | some shape => do
      let accept ← doubleCheckAccept env polygon shape
      .ok (if accept then insert item acc else acc)

/-- The double-check phase after the traversal loop (lines 442-489):
subtract the already-accepted ids, then fold `doubleCheckStep` over the
remaining candidates in ascending id order. -/
def doubleCheckPhase {C P Po : Type} (env : GeoEnv C P Po) (db : DB C P Po)
    (polygon : Po) (ret dc : Bitmap) : Except RustError Bitmap :=
  (sortBitmap (dc \ ret)).foldlM (doubleCheckStep env db polygon) ret

/-- `Writer::in_shape` (lines 376-492): seed the exploration queue with
the `Covers` tiling of the query polygon at resolution 0 (also seeding
`already_explored`), run the traversal loop, then run the double-check
phase.  Returns the accepted id set together with the inspector trace;
`none` is exhausted fuel. -/
def inShape {C P Po : Type} [DecidableEq C] (env : GeoEnv C P Po)
    (threshold fuel : Nat) (db : DB C P Po) (polygon : Po) :
    Option (Except RustError (Bitmap × List (FilteringStep × C))) :=
  let seed := env.tileMulti [polygon] 0
  match inShapeLoop env threshold db polygon fuel seed seed.toFinset false ∅ ∅ [] with
  | none => none
  | some (.error e) => some (.error e)
  | some (.ok out) =>
    match doubleCheckPhase env db polygon out.ret out.doubleCheck with
    | .error e => some (.error e)
    | .ok result => some (.ok (result, out.trace))

/-- The `Stats` record of `Writer::stats`. -/
structure Stats where
  totalCells : Nat
  totalItems : Nat
  cellsByResolution : List (Nat × Nat)
  deriving DecidableEq

/-- One `*cells_by_resolution.entry(res).or_default() += 1` update of
the sorted `BTreeMap` from resolutions to counts. -/
def bumpRes : List (Nat × Nat) → Nat → List (Nat × Nat)
  | [], r => [(r, 1)]
  | (k, v) :: rest, r =>
      if r = k then (k, v + 1) :: rest
      else if r < k then (r, 1) :: (k, v) :: rest
      else (k, v) :: bumpRes rest r

/-- `Writer::stats` (lines 339-355): count the `Item` records, then walk
`inner_db_cells` — which iterates the `Cell` namespace prefix — counting
every entry and bucketing by resolution.  The `InnerShape` namespace is
never touched. -/
def stats {C P Po : Type} (env : GeoEnv C P Po) (db : DB C P Po) : Stats :=
  { totalItems := db.items.length
    totalCells := db.cellDb.length
    cellsByResolution :=
      db.cellDb.foldl (fun m e => bumpRes m (env.resolution e.1)) [] }

/-- The geometry kinds `add_item` supports end to end: Point,
MultiPoint, Polygon, MultiPolygon. -/
def Geom.isSupported {P Po : Type} : Geom P Po → Bool
  | .point _ | .multiPoint _ | .polygon _ | .multiPolygon _ => true
  | _ => false

/-- The line family: Line, LineString, MultiLineString. -/
def Geom.isLine {P Po : Type} : Geom P Po → Bool
  | .line | .lineString | .multiLineString => true
  | _ => false

/-- The per-kind acceptance test of the double-check phase, written
from the specification text: a Point is accepted iff the query polygon
contains it, a MultiPoint iff some constituent point is contained, a
Polygon iff it is contained in or intersects the query polygon, a
MultiPolygon iff some constituent polygon is contained or intersects. -/
def specAccept {C P Po : Type} (env : GeoEnv C P Po) (polygon : Po) :
    Geom P Po → Bool
  | .point p => env.polyContainsPoint polygon p
  | .multiPoint ps => ps.any fun p => env.polyContainsPoint polygon p
  | .polygon g =>
      env.polyContainsPoly polygon g || env.polyIntersectsPoly polygon g
  | .multiPolygon gs =>
      gs.any fun g =>
        env.polyContainsPoly polygon g || env.polyIntersectsPoly polygon g
  | _ => false

/-!
Concrete environments used by counterexamples and witnesses.

`cexEnv` realises this geometric situation over opaque tokens: cell `0`
is a resolution-0 grid cell whose boundary polygon is token `100`; the
stored polygon `10` strictly contains that whole cell; the query polygon
`20` lies inside the cell and inside the stored polygon.  Consistently:
`10` contains `100` and `20`, `100` contains `20`, and all three
mutually intersect; the resolution-0 tiling of either polygon is the
single cell `0`.
-/

/-- Concrete geometry environment for the big-polygon / small-query
scenario (tokens as documented above). -/
def cexEnv : GeoEnv Nat Nat Nat where
  latLngToCell := fun _ _ => 0
  dissolve := fun _ => 100
  resolution := fun _ => 0
  polyContainsPoly := fun a b =>
    (a = 10 ∧ b = 100) ∨ (a = 10 ∧ b = 20) ∨ (a = 100 ∧ b = 20)
  multiPolyContainsPoly := fun _ _ => false
  polyContainsPoint := fun _ _ => false
  polyIntersectsPoly := fun a b =>
    (a = 10 ∨ a = 20 ∨ a = 100) ∧ (b = 10 ∨ b = 20 ∨ b = 100)
  tileMulti := fun ps r => if r = 0 ∧ (ps = [10] ∨ ps = [20]) then [0] else []
  intersectPieces := fun a _ => [a]

/-- The database produced by inserting the big polygon `10` as item 1
into the empty store under `cexEnv`: the item record, no `Cell` entry,
and the item recorded in `InnerShape` of cell 0. -/
def cexDB : DB Nat Nat Nat :=
  ⟨[(1, .polygon 10)], [], [(0, ({1} : Finset Nat))]⟩

/-- A store holding one prior occupant (item 9, a point) of cell 0,
used to exercise the threshold crossing. -/
def c7DB : DB Nat Nat Nat :=
  ⟨[(9, .point 5)], [(0, ({9} : Finset Nat))], []⟩

/-- A store holding item 5 (a point) in the `Cell` record of cell 0,
used to exercise the query deep-dive with threshold 1. -/
def c8DB : DB Nat Nat Nat :=
  ⟨[(5, .point 50)], [(0, ({5} : Finset Nat))], []⟩

/-- A store holding one point item, used to exercise the double-check
phase. -/
def c9DB : DB Nat Nat Nat :=
  ⟨[(3, .point 50)], [], []⟩

/-- Concrete grid-like environment whose cell numbers encode their
resolution (cell `100 * r` sits at resolution `r`); containment never
holds, intersection always does, clipping is the identity. -/
def gridEnv : GeoEnv Nat Nat Nat where
  latLngToCell := fun _ r => 100 * r
  dissolve := fun c => c
  resolution := fun c => c / 100
  polyContainsPoly := fun _ _ => false
  multiPolyContainsPoly := fun _ _ => false
  polyContainsPoint := fun _ _ => true
  polyIntersectsPoly := fun _ _ => true
  tileMulti := fun _ r => [100 * r]
  intersectPieces := fun a _ => [a]

/-! Basic lemmas about the store primitives. -/

theorem assocGet_assocPut_self {κ β : Type} [DecidableEq κ]
    (l : List (κ × β)) (k : κ) (v : β) :
    assocGet (assocPut l k v) k = some v := by
  induction l with
  | nil => simp [assocPut, assocGet]
  | cons hd tl ih =>
    rcases hd with ⟨k', v'⟩
    by_cases h : k' = k
    · simp [assocPut, assocGet, h]
    · simp [assocPut, assocGet, h, ih]

theorem mem_assocPut {κ β : Type} [DecidableEq κ]
    {l : List (κ × β)} {k : κ} {v : β} {e : κ × β}
    (he : e ∈ assocPut l k v) : e = (k, v) ∨ e ∈ l := by
  induction l with
  | nil => simpa [assocPut] using he
  | cons hd tl ih =>
    rcases hd with ⟨k', v'⟩
    by_cases h : k' = k
    · simp only [assocPut, if_pos h, List.mem_cons] at he
      rcases he with he | he
      · exact .inl he
      · exact .inr (List.mem_cons_of_mem _ he)
    · simp only [assocPut, if_neg h, List.mem_cons] at he
      rcases he with he | he
      · exact .inr (by simp [he])
      · rcases ih he with h' | h'
        · exact .inl h'
        · exact .inr (List.mem_cons_of_mem _ h')

theorem assocGet_mem {κ β : Type} [DecidableEq κ]
    {l : List (κ × β)} {k : κ} {v : β} (h : assocGet l k = some v) :
    (k, v) ∈ l := by
  induction l with
  | nil => simp [assocGet] at h
  | cons hd tl ih =>
    rcases hd with ⟨k', v'⟩
    by_cases hk : k' = k
    · subst hk
      simp [assocGet] at h
      simp [h]
    · simp only [assocGet, if_neg hk] at h
      exact List.mem_cons_of_mem _ (ih h)

theorem foldl_preserves {α β γ : Type} (f : β → α → β) (g : β → γ)
    (hf : ∀ b a, g (f b a) = g b) :
    ∀ (l : List α) (b : β), g (l.foldl f b) = g b := by
  intro l
  induction l with
  | nil => intro b; rfl
  | cons a as ih => intro b; rw [List.foldl_cons, ih, hf]

/-! Preservation of the `Item` namespace by the indexing machinery. -/

theorem refineStep_items {C P Po : Type} [DecidableEq C] (env : GeoEnv C P Po)
    (threshold : Nat) (db : DB C P Po) (e : Entry C P Po) :
    ((refineStep env threshold db e).1).items = db.items := by
  rcases e with ⟨i, s, c⟩
  simp only [refineStep]
  repeat' split
  all_goals rfl

theorem refineLoop_items {C P Po : Type} [DecidableEq C] (env : GeoEnv C P Po)
    (threshold : Nat) :
    ∀ (fuel : Nat) (db : DB C P Po) (queue : List (Entry C P Po))
      (db' : DB C P Po) (err : Option RustError),
      refineLoop env threshold fuel db queue = some (db', err) →
      db'.items = db.items := by
  intro fuel
  induction fuel with
  | zero =>
    intro db queue db' err h
    cases queue with
    | nil =>
      simp only [refineLoop, Option.some.injEq, Prod.mk.injEq] at h
      rw [h.1]
    | cons e rest => simp [refineLoop] at h
  | succ n ih =>
    intro db queue db' err h
    cases queue with
    | nil =>
      simp only [refineLoop, Option.some.injEq, Prod.mk.injEq] at h
      rw [h.1]
    | cons e rest =>
      have hstep := refineStep_items env threshold db e
      simp only [refineLoop] at h
      rcases hr : refineStep env threshold db e with ⟨db₁, res⟩
      rw [hr] at h hstep
      cases res with
      | error err' =>
        simp only [Option.some.injEq, Prod.mk.injEq] at h
        rw [← h.1]
        exact hstep
      | ok newEntries =>
        have := ih db₁ (rest ++ newEntries) db' err h
        rw [this]
        exact hstep

theorem explodePolygon_items {C P Po : Type} [DecidableEq C] (env : GeoEnv C P Po)
    (db : DB C P Po) (item : ItemId) (g : Po) :
    ((explodePolygon env db item g).1).items = db.items := by
  unfold explodePolygon
  refine foldl_preserves _ (fun st : DB C P Po × List (Entry C P Po) => st.1.items) ?_ _ _
  intro st cell
  dsimp only
  split <;> rfl

theorem explodeLevelZeroGeo_items {C P Po : Type} [DecidableEq C]
    (env : GeoEnv C P Po) (db : DB C P Po) (item : ItemId) (geo : Geom P Po) :
    ((explodeLevelZeroGeo env db item geo).1).items = db.items := by
  cases geo with
  | polygon g => simpa [explodeLevelZeroGeo] using explodePolygon_items env db item g
  | multiPolygon gs =>
    simp only [explodeLevelZeroGeo]
    refine foldl_preserves _ (fun st : DB C P Po × List (Entry C P Po) => st.1.items) ?_ _ _
    intro st g
    dsimp only
    exact explodePolygon_items env st.1 item g
  | point p => rfl
  | multiPoint ps => rfl
  | rect => rfl
  | triangle => rfl
  | geometryCollection => rfl
  | line => rfl
  | lineString => rfl
  | multiLineString => rfl

/-- C4 — Item round-trip: whenever `add_item` completes successfully,
looking the id up returns exactly the inserted geometry, because the
`Item` record is written first and the decomposition and refinement
phases only ever touch the `Cell` and `InnerShape` namespaces. -/
theorem addItem_item_roundtrip {C P Po : Type} [DecidableEq C]
    (env : GeoEnv C P Po) (threshold fuel : Nat) (db db' : DB C P Po)
    (item : ItemId) (geo : Geom P Po)
    (h : addItem env threshold fuel db item geo = some (db', none)) :
    itemLookup db' item = some geo := by
  simp only [addItem] at h
  rcases hex : explodeLevelZeroGeo env
      { db with items := assocPut db.items item geo } item geo with ⟨db₂, res⟩
  rw [hex] at h
  have hitems₂ : db₂.items = assocPut db.items item geo := by
    have := explodeLevelZeroGeo_items env
      { db with items := assocPut db.items item geo } item geo
    rw [hex] at this
    exact this
  cases res with
  | error e => simp at h
  | ok entries =>
    have := refineLoop_items env threshold fuel db₂ entries db' none h
    unfold itemLookup
    rw [this, hitems₂]
    exact assocGet_assocPut_self _ _ _

/-- Witness for C4: inserting the polygon item of the concrete scenario
into the empty store and looking it up again. -/
theorem addItem_item_roundtrip_witness :
    addItem cexEnv 200 16 (emptyDB Nat Nat Nat) 1 (.polygon 10) = some (cexDB, none) ∧
    itemLookup cexDB 1 = some (.polygon 10) :=
  ⟨by decide, addItem_item_roundtrip cexEnv 200 16 (emptyDB Nat Nat Nat) cexDB 1
    (.polygon 10) (by decide)⟩

/-! Lemmas about the resolution bucketing of `stats`. -/

theorem bumpRes_sum (m : List (Nat × Nat)) (r : Nat) :
    ((bumpRes m r).map Prod.snd).sum = (m.map Prod.snd).sum + 1 := by
  induction m with
  | nil => simp [bumpRes]
  | cons hd tl ih =>
    rcases hd with ⟨k, v⟩
    by_cases h1 : r = k
    · simp [bumpRes, h1]
      omega
    · by_cases h2 : r < k
      · simp [bumpRes, h1, h2]
        omega
      · simp [bumpRes, h1, h2, ih]
        omega

theorem foldl_bumpRes_sum {α : Type} (f : α → Nat) (l : List α) :
    ∀ m : List (Nat × Nat),
      (((l.foldl (fun m e => bumpRes m (f e)) m)).map Prod.snd).sum =
        (m.map Prod.snd).sum + l.length := by
  induction l with
  | nil => intro m; simp
  | cons a as ih =>
    intro m
    rw [List.foldl_cons, ih, bumpRes_sum]
    simp
    omega

/-- C10 — `stats` counts only the `Cell` namespace: replacing the whole
`InnerShape` namespace changes nothing in the output, `total_items` is
the number of `Item` records, `total_cells` the number of `Cell`
entries, and the per-resolution buckets sum to `total_cells` (each
`Cell` entry is counted exactly once, at its own resolution). -/
theorem stats_counts_cell_namespace_only {C P Po : Type}
    (env : GeoEnv C P Po) (db : DB C P Po) (inner' : List (C × Bitmap)) :
    stats env { db with innerDb := inner' } = stats env db ∧
    (stats env db).totalItems = db.items.length ∧
    (stats env db).totalCells = db.cellDb.length ∧
    ((stats env db).cellsByResolution.map Prod.snd).sum = db.cellDb.length := by
  refine ⟨rfl, rfl, rfl, ?_⟩
  simpa using foldl_bumpRes_sum (fun e => env.resolution e.1) db.cellDb []

/-- C3 counterexample — inserting a LineString does NOT return a
`LineUnsupported` error and does NOT leave the state unchanged: the call
ends in the explicit line panic (the `Error` enum has no
line-unsupported variant at all), and the `Item` record has already been
written when the panic fires, so the pre- and post-call `stats` of the
transaction state differ. -/
theorem addItem_lineString_panics_and_writes_item :
    addItem cexEnv 200 16 (emptyDB Nat Nat Nat) 7 .lineString =
      some (⟨[(7, .lineString)], [], []⟩, some (.panicked "Doesnt support lines")) ∧
    itemLookup (⟨[(7, .lineString)], [], []⟩ : DB Nat Nat Nat) 7 = some .lineString ∧
    (stats cexEnv (⟨[(7, .lineString)], [], []⟩ : DB Nat Nat Nat)).totalItems ≠
      (stats cexEnv (emptyDB Nat Nat Nat)).totalItems := by
  refine ⟨by decide, by decide, by decide⟩

/-- C3 (amended) — for every Line, LineString or MultiLineString input,
`add_item` aborts with the panic carrying the line message, after having
already written the `Item` record for the id; state-unchanged holds only
through the caller discarding the aborted transaction, and no
`LineUnsupported` error value exists to be returned. -/
theorem addItem_line_panics {C P Po : Type} [DecidableEq C] (env : GeoEnv C P Po)
    (threshold fuel : Nat) (db : DB C P Po) (item : ItemId) (geo : Geom P Po)
    (h : geo.isLine = true) :
    addItem env threshold fuel db item geo =
      some ({ db with items := assocPut db.items item geo },
        some (.panicked "Doesnt support lines")) := by
  cases geo with
  | line => rfl
  | lineString => rfl
  | multiLineString => rfl
  | point p => simp [Geom.isLine] at h
  | multiPoint ps => simp [Geom.isLine] at h
  | polygon g => simp [Geom.isLine] at h
  | multiPolygon gs => simp [Geom.isLine] at h
  | rect => simp [Geom.isLine] at h
  | triangle => simp [Geom.isLine] at h
  | geometryCollection => simp [Geom.isLine] at h

/-- Witness for the amended C3, at a concrete LineString insertion. -/
theorem addItem_line_panics_witness :
    (Geom.isLine (.lineString : Geom Nat Nat) = true) ∧
    addItem cexEnv 200 16 (emptyDB Nat Nat Nat) 7 .lineString =
      some ({ emptyDB Nat Nat Nat with
          items := assocPut (emptyDB Nat Nat Nat).items 7 .lineString },
        some (.panicked "Doesnt support lines")) :=
  ⟨by decide, addItem_line_panics cexEnv 200 16 (emptyDB Nat Nat Nat) 7
    .lineString (by decide)⟩

/-- C1 — Completeness is violated by the code: inserting one large
polygon (item 1) that fully contains a resolution-0 cell records the
item only in `InnerShape` of that cell, leaving no `Cell` entry; a query
polygon inside that cell that intersects the stored polygon per the
geometry semantics then traverses the cell as `NotPresentInDB` — the
traversal never reads the `InnerShape` namespace — and returns the empty
set instead of a set containing item 1. -/
theorem completeness_violated_for_inner_shape_only_item :
    addItem cexEnv 200 16 (emptyDB Nat Nat Nat) 1 (.polygon 10) = some (cexDB, none) ∧
    cexEnv.polyIntersectsPoly 20 10 = true ∧
    inShape cexEnv 200 16 cexDB 20 = some (.ok (∅, [(.notPresentInDB, 0)])) := by
  refine ⟨by decide, by decide, by decide⟩

/-! Characterization of the refinement-loop body, one lemma per branch. -/

/-- The database after overwriting one `Cell` bitmap. -/
def withCell {C P Po : Type} [DecidableEq C] (db : DB C P Po) (cell : C)
    (bm : Bitmap) : DB C P Po :=
  { db with cellDb := assocPut db.cellDb cell bm }

/-- The database after overwriting one `InnerShape` bitmap. -/
def withInner {C P Po : Type} [DecidableEq C] (db : DB C P Po) (cell : C)
    (bm : Bitmap) : DB C P Po :=
  { db with innerDb := assocPut db.innerDb cell bm }

/-- The `Cell` bitmap stored at a cell, defaulting to empty. -/
def cellBitmap {C P Po : Type} [DecidableEq C] (db : DB C P Po) (cell : C) : Bitmap :=
  (assocGet db.cellDb cell).getD ∅

/-- The `InnerShape` bitmap stored at a cell, defaulting to empty. -/
def innerBitmap {C P Po : Type} [DecidableEq C] (db : DB C P Po) (cell : C) : Bitmap :=
  (assocGet db.innerDb cell).getD ∅

theorem refineStep_inner_eq {C P Po : Type} [DecidableEq C] (env : GeoEnv C P Po)
    (threshold : Nat) (db : DB C P Po) (item : ItemId) (shape : Geom P Po) (cell : C)
    (hcont : geomContainsPoly env shape (env.dissolve cell) = true) :
    refineStep env threshold db (item, shape, cell) =
      (withInner db cell (insert item (innerBitmap db cell)), .ok []) := by
  unfold refineStep withInner innerBitmap
  dsimp only
  rw [if_pos hcont]

theorem refineStep_maxres_eq {C P Po : Type} [DecidableEq C] (env : GeoEnv C P Po)
    (threshold : Nat) (db : DB C P Po) (item : ItemId) (shape : Geom P Po) (cell : C)
    (hcont : geomContainsPoly env shape (env.dissolve cell) = false)
    (hsucc : resSucc (env.resolution cell) = none) :
    refineStep env threshold db (item, shape, cell) =
      (withCell db cell (insert item (cellBitmap db cell)), .ok []) := by
  unfold refineStep withCell cellBitmap
  dsimp only
  rw [if_neg (by simp [hcont]), hsucc]

theorem refineStep_below_eq {C P Po : Type} [DecidableEq C] (env : GeoEnv C P Po)
    (threshold : Nat) (db : DB C P Po) (item : ItemId) (shape : Geom P Po) (cell : C)
    (nr : Nat)
    (hcont : geomContainsPoly env shape (env.dissolve cell) = false)
    (hsucc : resSucc (env.resolution cell) = some nr)
    (hcard : (insert item (cellBitmap db cell)).card < threshold) :
    refineStep env threshold db (item, shape, cell) =
      (withCell db cell (insert item (cellBitmap db cell)), .ok []) := by
  unfold cellBitmap at hcard
  unfold refineStep withCell cellBitmap
  dsimp only
  rw [if_neg (by simp [hcont]), hsucc]
  dsimp only
  rw [if_neg (Nat.not_le.mpr hcard)]

theorem refineStep_split_already_eq {C P Po : Type} [DecidableEq C]
    (env : GeoEnv C P Po) (threshold : Nat) (db : DB C P Po) (item : ItemId)
    (shape : Geom P Po) (cell : C) (nr : Nat)
    (hcont : geomContainsPoly env shape (env.dissolve cell) = false)
    (hsucc : resSucc (env.resolution cell) = some nr)
    (hcard : threshold ≤ (insert item (cellBitmap db cell)).card)
    (halready : threshold ≤ (cellBitmap db cell).card) :
    refineStep env threshold db (item, shape, cell) =
      (withCell db cell (insert item (cellBitmap db cell)),
        reEnqueueSelf env item shape nr) := by
  unfold cellBitmap at hcard halready
  unfold refineStep withCell cellBitmap
  dsimp only
  rw [if_neg (by simp [hcont]), hsucc]
  dsimp only
  rw [if_pos hcard]
  rcases h : reEnqueueSelf env item shape nr with e | se
  · rfl
  · dsimp only
    rw [if_pos halready]

theorem refineStep_split_fresh_eq {C P Po : Type} [DecidableEq C]
    (env : GeoEnv C P Po) (threshold : Nat) (db : DB C P Po) (item : ItemId)
    (shape : Geom P Po) (cell : C) (nr : Nat)
    (hcont : geomContainsPoly env shape (env.dissolve cell) = false)
    (hsucc : resSucc (env.resolution cell) = some nr)
    (hcard : threshold ≤ (insert item (cellBitmap db cell)).card)
    (hfresh : (cellBitmap db cell).card < threshold) :
    refineStep env threshold db (item, shape, cell) =
      (withCell db cell (insert item (cellBitmap db cell)),
        (reEnqueueSelf env item shape nr).bind fun se =>
          (splitOccupants env (withCell db cell (insert item (cellBitmap db cell)))
              (env.dissolve cell) nr item (insert item (cellBitmap db cell))).map
            fun sp => se ++ sp) := by
  unfold cellBitmap at hcard hfresh
  unfold refineStep withCell cellBitmap
  dsimp only
  rw [if_neg (by simp [hcont]), hsucc]
  dsimp only
  rw [if_pos hcard]
  rcases h : reEnqueueSelf env item shape nr with e | se
  · rfl
  · dsimp only
    rw [if_neg (Nat.not_le.mpr hfresh)]
    rcases h2 : splitOccupants env
        { db with cellDb := assocPut db.cellDb cell (insert item ((assocGet db.cellDb cell).getD ∅)) }
        (env.dissolve cell) nr item
        (insert item ((assocGet db.cellDb cell).getD ∅)) with e2 | sp
    · rfl
    · rfl

/-! Resolutions of re-enqueued entries. -/

theorem foldlM_except_mem {α β : Type} (f : List β → α → Except RustError (List β))
    (P : β → Prop)
    (hf : ∀ acc a acc', f acc a = .ok acc' → (∀ e ∈ acc, P e) → ∀ e ∈ acc', P e) :
    ∀ (l : List α) (acc es : List β), List.foldlM f acc l = .ok es →
      (∀ e ∈ acc, P e) → ∀ e ∈ es, P e := by
  intro l
  induction l with
  | nil =>
    intro acc es h hacc
    simp only [List.foldlM_nil, pure, Except.pure, Except.ok.injEq] at h
    subst h
    exact hacc
  | cons a as ih =>
    intro acc es h hacc
    rw [List.foldlM_cons] at h
    rcases hfa : f acc a with e | acc'
    · rw [hfa] at h
      simp [Bind.bind, Except.bind] at h
    · rw [hfa] at h
      simp only [Bind.bind, Except.bind] at h
      exact ih acc' es h (hf acc a acc' hfa hacc)

theorem reEnqueueSelf_resolution {C P Po : Type} (env : GeoEnv C P Po)
    (hTile : ∀ ps r c, c ∈ env.tileMulti ps r → env.resolution c = r)
    (hLatLng : ∀ p r, env.resolution (env.latLngToCell p r) = r)
    {item : ItemId} {shape : Geom P Po} {nr : Nat} {es : List (Entry C P Po)}
    (h : reEnqueueSelf env item shape nr = .ok es) :
    ∀ e ∈ es, env.resolution e.2.2 = nr := by
  cases shape with
  | point p =>
    simp only [reEnqueueSelf, Except.ok.injEq] at h
    subst h
    intro e he
    simp only [List.mem_singleton] at he
    subst he
    exact hLatLng p nr
  | polygon g =>
    simp only [reEnqueueSelf, Except.ok.injEq] at h
    subst h
    intro e he
    simp only [List.mem_map] at he
    obtain ⟨c, hc, rfl⟩ := he
    exact hTile [g] nr c hc
  | multiPoint ps => simp [reEnqueueSelf] at h
  | multiPolygon gs => simp [reEnqueueSelf] at h
  | rect => simp [reEnqueueSelf] at h
  | triangle => simp [reEnqueueSelf] at h
  | geometryCollection => simp [reEnqueueSelf] at h
  | line => simp [reEnqueueSelf] at h
  | lineString => simp [reEnqueueSelf] at h
  | multiLineString => simp [reEnqueueSelf] at h

theorem splitOccupant_resolution {C P Po : Type} (env : GeoEnv C P Po)
    (hTile : ∀ ps r c, c ∈ env.tileMulti ps r → env.resolution c = r)
    (hLatLng : ∀ p r, env.resolution (env.latLngToCell p r) = r)
    {cellPoly : Po} {nr : Nat} {item : ItemId} {shape : Geom P Po}
    {es : List (Entry C P Po)}
    (h : splitOccupant env cellPoly nr item shape = .ok es) :
    ∀ e ∈ es, env.resolution e.2.2 = nr := by
  cases shape with
  | point p =>
    simp only [splitOccupant, Except.ok.injEq] at h
    subst h
    intro e he
    simp only [List.mem_singleton] at he
    subst he
    exact hLatLng p nr
  | multiPoint ps =>
    simp only [splitOccupant, Except.ok.injEq] at h
    subst h
    intro e he
    simp only [List.mem_map] at he
    obtain ⟨p, _, rfl⟩ := he
    exact hLatLng p nr
  | polygon g =>
    simp only [splitOccupant] at h
    split at h
    · simp only [Except.ok.injEq] at h
      subst h
      intro e he
      simp at he
    · simp only [Except.ok.injEq] at h
      subst h
      intro e he
      simp only [List.mem_map] at he
      obtain ⟨c, hc, rfl⟩ := he
      exact hTile _ nr c hc
  | multiPolygon gs =>
    simp only [splitOccupant, Except.ok.injEq] at h
    subst h
    intro e he
    simp only [List.mem_flatten, List.mem_map] at he
    obtain ⟨L, ⟨g, _, rfl⟩, heL⟩ := he
    by_cases hemp : (env.intersectPieces g cellPoly).isEmpty
    · simp [hemp] at heL
    · simp only [hemp, if_false, Bool.false_eq_true, List.mem_map] at heL
      obtain ⟨c, hc, rfl⟩ := heL
      exact hTile _ nr c hc
  | rect => simp [splitOccupant] at h
  | triangle => simp [splitOccupant] at h
  | geometryCollection => simp [splitOccupant] at h
  | line => simp [splitOccupant] at h
  | lineString => simp [splitOccupant] at h
  | multiLineString => simp [splitOccupant] at h

theorem splitOccupants_resolution {C P Po : Type} [DecidableEq C]
    (env : GeoEnv C P Po)
    (hTile : ∀ ps r c, c ∈ env.tileMulti ps r → env.resolution c = r)
    (hLatLng : ∀ p r, env.resolution (env.latLngToCell p r) = r)
    {db : DB C P Po} {cellPoly : Po} {nr : Nat} {item : ItemId} {bm : Bitmap}
    {es : List (Entry C P Po)}
    (h : splitOccupants env db cellPoly nr item bm = .ok es) :
    ∀ e ∈ es, env.resolution e.2.2 = nr := by
  unfold splitOccupants at h
  refine foldlM_except_mem _ (fun e => env.resolution e.2.2 = nr) ?_
    (sortBitmap bm) [] es h (by simp)
  intro acc a acc' hfa hacc
  by_cases ha : a = item
  · rw [if_pos ha] at hfa
    simp only [Except.ok.injEq] at hfa
    subst hfa
    exact hacc
  · rw [if_neg ha] at hfa
    rcases hg : assocGet db.items a with _ | shape
    · rw [hg] at hfa
      simp at hfa
    · rw [hg] at hfa
      dsimp only at hfa
      rcases hs : splitOccupant env cellPoly nr a shape with e' | es'
      · rw [hs] at hfa
        simp [Bind.bind, Except.bind] at hfa
      · rw [hs] at hfa
        simp only [Bind.bind, Except.bind, pure, Except.pure, Except.ok.injEq] at hfa
        subst hfa
        intro e he
        rcases List.mem_append.mp he with he | he
        · exact hacc e he
        · exact splitOccupant_resolution env hTile hLatLng hs e he

/-- C6 — Invariant I6: an entry processed by the refinement loop only
produces follow-up entries at exactly the next finer resolution, which
never exceeds the grid maximum of 15; and an entry whose cell is at the
maximum resolution produces no follow-up work at all (the cell stays a
terminal bucket no matter how its population compares to the
threshold). -/
theorem refinement_never_exceeds_max_resolution {C P Po : Type} [DecidableEq C]
    (env : GeoEnv C P Po) (threshold : Nat) (db : DB C P Po) (item : ItemId)
    (shape : Geom P Po) (cell : C)
    (hTile : ∀ ps r c, c ∈ env.tileMulti ps r → env.resolution c = r)
    (hLatLng : ∀ p r, env.resolution (env.latLngToCell p r) = r)
    (hres : env.resolution cell ≤ 15) :
    (∀ entries, (refineStep env threshold db (item, shape, cell)).2 = .ok entries →
      ∀ e ∈ entries, env.resolution e.2.2 = env.resolution cell + 1 ∧
        env.resolution e.2.2 ≤ 15) ∧
    (env.resolution cell = 15 →
      (refineStep env threshold db (item, shape, cell)).2 = .ok []) := by
  by_cases hcont : geomContainsPoly env shape (env.dissolve cell) = true
  · rw [refineStep_inner_eq env threshold db item shape cell hcont]
    constructor
    · intro entries h e he
      simp only [Except.ok.injEq] at h
      subst h
      simp at he
    · intro _
      rfl
  · have hcont' : geomContainsPoly env shape (env.dissolve cell) = false := by
      simpa using hcont
    rcases hsucc : resSucc (env.resolution cell) with _ | nr
    · rw [refineStep_maxres_eq env threshold db item shape cell hcont' hsucc]
      constructor
      · intro entries h e he
        simp only [Except.ok.injEq] at h
        subst h
        simp at he
      · intro _
        rfl
    · have hlt : env.resolution cell < 15 := by
        by_contra hge
        simp [resSucc, hge] at hsucc
      have hnr : nr = env.resolution cell + 1 := by
        rw [resSucc, if_pos hlt] at hsucc
        exact (Option.some.inj hsucc).symm
      subst hnr
      constructor
      · intro entries h e he
        by_cases hcard : threshold ≤ (insert item (cellBitmap db cell)).card
        · by_cases halready : threshold ≤ (cellBitmap db cell).card
          · rw [refineStep_split_already_eq env threshold db item shape cell _
              hcont' hsucc hcard halready] at h
            have hr := reEnqueueSelf_resolution env hTile hLatLng h e he
            exact ⟨hr, by omega⟩
          · rw [refineStep_split_fresh_eq env threshold db item shape cell _
              hcont' hsucc hcard (Nat.not_le.mp halready)] at h
            dsimp only at h
            rcases hse : reEnqueueSelf env item shape (env.resolution cell + 1)
              with e' | se
            · rw [hse] at h
              simp [Except.bind] at h
            · rw [hse] at h
              rcases hsp : splitOccupants env
                  (withCell db cell (insert item (cellBitmap db cell)))
                  (env.dissolve cell) (env.resolution cell + 1) item
                  (insert item (cellBitmap db cell)) with e' | sp
              · rw [hsp] at h
                simp [Except.bind, Except.map] at h
              · rw [hsp] at h
                simp only [Except.bind, Except.map, Except.ok.injEq] at h
                subst h
                rcases List.mem_append.mp he with he' | he'
                · have hr := reEnqueueSelf_resolution env hTile hLatLng hse e he'
                  exact ⟨hr, by omega⟩
                · have hr := splitOccupants_resolution env hTile hLatLng hsp e he'
                  exact ⟨hr, by omega⟩
        · rw [refineStep_below_eq env threshold db item shape cell _
            hcont' hsucc (Nat.not_le.mp hcard)] at h
          simp only [Except.ok.injEq] at h
          subst h
          simp at he
      · intro h15
        omega

/-- Witness for C6 at the concrete grid-like environment, whose tiling
and point-to-cell operations genuinely produce cells of the requested
resolution. -/
theorem refinement_never_exceeds_max_resolution_witness :
    (∀ ps r c, c ∈ gridEnv.tileMulti ps r → gridEnv.resolution c = r) ∧
    (∀ p r, gridEnv.resolution (gridEnv.latLngToCell p r) = r) ∧
    (gridEnv.resolution 0 ≤ 15) ∧
    ((∀ entries,
        (refineStep gridEnv 2 (emptyDB Nat Nat Nat) (1, Geom.point 5, 0)).2 =
          .ok entries →
        ∀ e ∈ entries, gridEnv.resolution e.2.2 = gridEnv.resolution 0 + 1 ∧
          gridEnv.resolution e.2.2 ≤ 15) ∧
      (gridEnv.resolution 0 = 15 →
        (refineStep gridEnv 2 (emptyDB Nat Nat Nat) (1, Geom.point 5, 0)).2 =
          .ok [])) := by
  have hTile : ∀ ps r c, c ∈ gridEnv.tileMulti ps r → gridEnv.resolution c = r := by
    intro ps r c hc
    simp only [gridEnv, List.mem_singleton] at hc
    subst hc
    show 100 * r / 100 = r
    omega
  have hLatLng : ∀ p r, gridEnv.resolution (gridEnv.latLngToCell p r) = r := by
    intro p r
    show 100 * r / 100 = r
    omega
  exact ⟨hTile, hLatLng, by decide,
    refinement_never_exceeds_max_resolution gridEnv 2 (emptyDB Nat Nat Nat) 1
      (Geom.point 5) 0 hTile hLatLng (by decide)⟩

/-- C7 — Split-once threshold semantics of the refinement body, for a
work entry that is not inner-shape short-circuited and whose cell has a
finer resolution: the `already_splitted` flag is the pre-insertion
comparison `threshold ≤ |Cell(cell)|`; if the bitmap stays below the
threshold after inserting the id the entry terminates with no follow-up
work; otherwise the id is re-enqueued at the next finer resolution, and
the other occupants are additionally re-enqueued exactly when the flag
was false — that is, only on the insertion that crosses the
threshold. -/
theorem addItem_split_once_semantics {C P Po : Type} [DecidableEq C]
    (env : GeoEnv C P Po) (threshold : Nat) (db : DB C P Po) (item : ItemId)
    (shape : Geom P Po) (cell : C) (nr : Nat)
    (hcont : geomContainsPoly env shape (env.dissolve cell) = false)
    (hsucc : resSucc (env.resolution cell) = some nr) :
    ((insert item (cellBitmap db cell)).card < threshold →
      refineStep env threshold db (item, shape, cell) =
        (withCell db cell (insert item (cellBitmap db cell)), .ok [])) ∧
    (threshold ≤ (insert item (cellBitmap db cell)).card →
      (threshold ≤ (cellBitmap db cell).card →
        refineStep env threshold db (item, shape, cell) =
          (withCell db cell (insert item (cellBitmap db cell)),
            reEnqueueSelf env item shape nr)) ∧
      ((cellBitmap db cell).card < threshold →
        refineStep env threshold db (item, shape, cell) =
          (withCell db cell (insert item (cellBitmap db cell)),
            (reEnqueueSelf env item shape nr).bind fun se =>
              (splitOccupants env
                  (withCell db cell (insert item (cellBitmap db cell)))
                  (env.dissolve cell) nr item
                  (insert item (cellBitmap db cell))).map
                fun sp => se ++ sp))) :=
  ⟨fun hbelow => refineStep_below_eq env threshold db item shape cell nr
      hcont hsucc hbelow,
    fun hcard =>
      ⟨fun halready => refineStep_split_already_eq env threshold db item shape
          cell nr hcont hsucc hcard halready,
        fun hfresh => refineStep_split_fresh_eq env threshold db item shape
          cell nr hcont hsucc hcard hfresh⟩⟩

/-- Witness for C7: a point insertion into a cell that already holds one
other occupant, with threshold 2, so the insertion crosses the
threshold. -/
theorem addItem_split_once_semantics_witness :
    (geomContainsPoly gridEnv (Geom.point 5) (gridEnv.dissolve 0) = false) ∧
    (resSucc (gridEnv.resolution 0) = some 1) ∧
    (((insert 1 (cellBitmap c7DB 0)).card < 2 →
      refineStep gridEnv 2 c7DB (1, Geom.point 5, 0) =
        (withCell c7DB 0 (insert 1 (cellBitmap c7DB 0)), .ok [])) ∧
    (2 ≤ (insert 1 (cellBitmap c7DB 0)).card →
      (2 ≤ (cellBitmap c7DB 0).card →
        refineStep gridEnv 2 c7DB (1, Geom.point 5, 0) =
          (withCell c7DB 0 (insert 1 (cellBitmap c7DB 0)),
            reEnqueueSelf gridEnv 1 (Geom.point 5) 1)) ∧
      ((cellBitmap c7DB 0).card < 2 →
        refineStep gridEnv 2 c7DB (1, Geom.point 5, 0) =
          (withCell c7DB 0 (insert 1 (cellBitmap c7DB 0)),
            (reEnqueueSelf gridEnv 1 (Geom.point 5) 1).bind fun se =>
              (splitOccupants gridEnv (withCell c7DB 0 (insert 1 (cellBitmap c7DB 0)))
                  (gridEnv.dissolve 0) 1 1 (insert 1 (cellBitmap c7DB 0))).map
                fun sp => se ++ sp)))) :=
  ⟨by decide, by decide,
    addItem_split_once_semantics gridEnv 2 c7DB 1 (Geom.point 5) 0 1
      (by decide) (by decide)⟩

/-! The deep-dive child enqueueing of the query loop. -/

theorem enqueueChildren_cons {C : Type} [DecidableEq C] (a : C) (as : List C)
    (ex : Finset C) (q : List C) :
    enqueueChildren (a :: as) ex q =
      if a ∈ ex then enqueueChildren as ex q
      else enqueueChildren as (insert a ex) (q ++ [a]) := by
  unfold enqueueChildren
  rw [List.foldl_cons]
  by_cases ha : a ∈ ex
  · rw [if_pos ha]
    simp [ha]
  · rw [if_neg ha]
    simp [ha]

theorem mem_enqueueChildren_snd {C : Type} [DecidableEq C] :
    ∀ (ch : List C) (ex : Finset C) (q : List C) (c : C),
      c ∈ (enqueueChildren ch ex q).2 ↔ c ∈ q ∨ (c ∈ ch ∧ c ∉ ex) := by
  intro ch
  induction ch with
  | nil =>
    intro ex q c
    simp [enqueueChildren]
  | cons a as ih =>
    intro ex q c
    rw [enqueueChildren_cons]
    by_cases ha : a ∈ ex
    · rw [if_pos ha, ih]
      constructor
      · rintro (h | ⟨h1, h2⟩)
        · exact .inl h
        · exact .inr ⟨List.mem_cons_of_mem _ h1, h2⟩
      · rintro (h | ⟨h1, h2⟩)
        · exact .inl h
        · rcases List.mem_cons.mp h1 with h1 | h1
          · exact absurd (h1 ▸ ha) h2
          · exact .inr ⟨h1, h2⟩
    · rw [if_neg ha, ih]
      constructor
      · rintro (h | ⟨h1, h2⟩)
        · rcases List.mem_append.mp h with h | h
          · exact .inl h
          · have hca : c = a := by simpa using h
            exact .inr ⟨by simp [hca], hca ▸ ha⟩
        · refine .inr ⟨List.mem_cons_of_mem _ h1, fun hce => ?_⟩
          exact h2 (Finset.mem_insert_of_mem hce)
      · rintro (h | ⟨h1, h2⟩)
        · exact .inl (List.mem_append.mpr (.inl h))
        · rcases List.mem_cons.mp h1 with h1 | h1
          · exact .inl (List.mem_append.mpr (.inr (by simp [h1])))
          · by_cases hca : c = a
            · exact .inl (List.mem_append.mpr (.inr (by simp [hca])))
            · refine .inr ⟨h1, fun hmem => ?_⟩
              rcases Finset.mem_insert.mp hmem with h' | h'
              · exact hca h'
              · exact h2 h'

theorem inShapeLoop_tooLarge_mono {C P Po : Type} [DecidableEq C]
    (env : GeoEnv C P Po) (threshold : Nat) (db : DB C P Po) (polygon : Po) :
    ∀ (fuel : Nat) (q : List C) (ex : Finset C) (ret dc : Bitmap)
      (tr : List (FilteringStep × C)) (out : LoopOut C),
      inShapeLoop env threshold db polygon fuel q ex true ret dc tr =
        some (.ok out) →
      out.tooLarge = true := by
  intro fuel
  induction fuel with
  | zero =>
    intro q ex ret dc tr out h
    cases q with
    | nil =>
      simp only [inShapeLoop, Option.some.injEq] at h
      rw [← (Except.ok.inj h)]
    | cons a as => simp [inShapeLoop] at h
  | succ n ih =>
    intro q ex ret dc tr out h
    cases q with
    | nil =>
      simp only [inShapeLoop, Option.some.injEq] at h
      rw [← (Except.ok.inj h)]
    | cons cell rest =>
      simp only [inShapeLoop] at h
      rcases hg : assocGet db.cellDb cell with _ | items
      · rw [hg] at h
        exact ih _ _ _ _ _ _ h
      · rw [hg] at h
        dsimp only at h
        by_cases h1 : env.polyContainsPoly polygon (env.dissolve cell) = true
        · rw [if_pos h1] at h
          exact ih _ _ _ _ _ _ h
        · rw [if_neg h1] at h
          by_cases h2 : env.polyIntersectsPoly polygon (env.dissolve cell) = true
          · rw [if_pos h2] at h
            by_cases h3 : items.card < threshold ∨ env.resolution cell = 15
            · rw [if_pos h3] at h
              exact ih _ _ _ _ _ _ h
            · rw [if_neg h3] at h
              rcases hs : resSucc (env.resolution cell) with _ | nr
              · rw [hs] at h
                simp at h
              · rw [hs] at h
                dsimp only at h
                rw [ite_self] at h
                exact ih _ _ _ _ _ _ h
          · rw [if_neg h2] at h
            exact ih _ _ _ _ _ _ h

/-- C8 — the query descent rule: when the dequeued cell holds at least
`threshold` items, intersects the query polygon without being contained
in it, and is not at maximum resolution, the loop continues by tiling
the query polygon — or the dissolved cell boundary once `too_large` is
set — at the next resolution; a produced child is enqueued exactly when
it is not already in `already_explored`; a descent producing more than
3 children sets `too_large`, and the flag, once set, stays set for the
rest of the traversal. -/
theorem inshape_descent_rule {C P Po : Type} [DecidableEq C]
    (env : GeoEnv C P Po) (threshold : Nat) (db : DB C P Po) (polygon : Po)
    (fuel : Nat) (cell : C) (rest : List C) (explored : Finset C)
    (tooLarge : Bool) (ret dc : Bitmap) (trace : List (FilteringStep × C))
    (items : Bitmap)
    (hitems : assocGet db.cellDb cell = some items)
    (hcont : env.polyContainsPoly polygon (env.dissolve cell) = false)
    (hint : env.polyIntersectsPoly polygon (env.dissolve cell) = true)
    (hcard : threshold ≤ items.card)
    (hres15 : env.resolution cell ≠ 15)
    (hresle : env.resolution cell ≤ 15) :
    (inShapeLoop env threshold db polygon (fuel + 1) (cell :: rest) explored
        tooLarge ret dc trace =
      inShapeLoop env threshold db polygon fuel
        (enqueueChildren
          (env.tileMulti [if tooLarge then env.dissolve cell else polygon]
            (env.resolution cell + 1)) explored rest).2
        (enqueueChildren
          (env.tileMulti [if tooLarge then env.dissolve cell else polygon]
            (env.resolution cell + 1)) explored rest).1
        (if 3 < (env.tileMulti [if tooLarge then env.dissolve cell else polygon]
            (env.resolution cell + 1)).length then true else tooLarge)
        ret dc (trace ++ [(.deepDive, cell)])) ∧
    (∀ c, c ∈ (enqueueChildren
        (env.tileMulti [if tooLarge then env.dissolve cell else polygon]
          (env.resolution cell + 1)) explored rest).2 ↔
      c ∈ rest ∨
        (c ∈ env.tileMulti [if tooLarge then env.dissolve cell else polygon]
            (env.resolution cell + 1) ∧ c ∉ explored)) ∧
    (∀ (fuel' : Nat) (q : List C) (ex : Finset C) (ret' dc' : Bitmap)
        (tr' : List (FilteringStep × C)) (out : LoopOut C),
      inShapeLoop env threshold db polygon fuel' q ex true ret' dc' tr' =
        some (.ok out) →
      out.tooLarge = true) := by
  refine ⟨?_, fun c => mem_enqueueChildren_snd _ _ _ _,
    inShapeLoop_tooLarge_mono env threshold db polygon⟩
  conv_lhs => rw [inShapeLoop]
  rw [hitems]
  dsimp only
  rw [if_neg (by simp [hcont]), if_pos hint,
    if_neg (by rintro (h | h); exact absurd h (Nat.not_lt.mpr hcard); exact hres15 h)]
  have hs : resSucc (env.resolution cell) = some (env.resolution cell + 1) := by
    rw [resSucc, if_pos (lt_of_le_of_ne hresle hres15)]
  rw [hs]

/-- Witness for C8: a deep dive at cell 0 of the concrete scenario
environment with threshold 1 (the cell holds one item, the query
intersects the cell polygon without containing it). -/
theorem inshape_descent_rule_witness :
    (assocGet c8DB.cellDb 0 = some ({5} : Finset Nat)) ∧
    (cexEnv.polyContainsPoly 20 (cexEnv.dissolve 0) = false) ∧
    (cexEnv.polyIntersectsPoly 20 (cexEnv.dissolve 0) = true) ∧
    (1 ≤ ({5} : Finset Nat).card) ∧
    (cexEnv.resolution 0 ≠ 15) ∧
    (cexEnv.resolution 0 ≤ 15) ∧
    ((inShapeLoop cexEnv 1 c8DB 20 (3 + 1) ([0] : List Nat) ({0} : Finset Nat)
        false ∅ ∅ [] =
      inShapeLoop cexEnv 1 c8DB 20 3
        (enqueueChildren
          (cexEnv.tileMulti [if false then cexEnv.dissolve 0 else 20]
            (cexEnv.resolution 0 + 1)) ({0} : Finset Nat) []).2
        (enqueueChildren
          (cexEnv.tileMulti [if false then cexEnv.dissolve 0 else 20]
            (cexEnv.resolution 0 + 1)) ({0} : Finset Nat) []).1
        (if 3 < (cexEnv.tileMulti [if false then cexEnv.dissolve 0 else 20]
            (cexEnv.resolution 0 + 1)).length then true else false)
        ∅ ∅ ([] ++ [(.deepDive, 0)])) ∧
    (∀ c, c ∈ (enqueueChildren
        (cexEnv.tileMulti [if false then cexEnv.dissolve 0 else 20]
          (cexEnv.resolution 0 + 1)) ({0} : Finset Nat) []).2 ↔
      c ∈ ([] : List Nat) ∨
        (c ∈ cexEnv.tileMulti [if false then cexEnv.dissolve 0 else 20]
            (cexEnv.resolution 0 + 1) ∧ c ∉ ({0} : Finset Nat))) ∧
    (∀ (fuel' : Nat) (q : List Nat) (ex : Finset Nat) (ret' dc' : Bitmap)
        (tr' : List (FilteringStep × Nat)) (out : LoopOut Nat),
      inShapeLoop cexEnv 1 c8DB 20 fuel' q ex true ret' dc' tr' =
        some (.ok out) →
      out.tooLarge = true)) :=
  ⟨by decide, by decide, by decide, by decide, by decide, by decide,
    inshape_descent_rule cexEnv 1 c8DB 20 3 0 [] {0} false ∅ ∅ [] {5}
      (by decide) (by decide) (by decide) (by decide) (by decide) (by decide)⟩

/-! The double-check phase. -/

theorem doubleCheckAccept_supported {C P Po : Type} (env : GeoEnv C P Po)
    (polygon : Po) (shape : Geom P Po) (h : shape.isSupported = true) :
    doubleCheckAccept env polygon shape = .ok (specAccept env polygon shape) := by
  cases shape with
  | point p => rfl
  | multiPoint ps => rfl
  | polygon g => rfl
  | multiPolygon gs => rfl
  | rect => simp [Geom.isSupported] at h
  | triangle => simp [Geom.isSupported] at h
  | geometryCollection => simp [Geom.isSupported] at h
  | line => simp [Geom.isSupported] at h
  | lineString => simp [Geom.isSupported] at h
  | multiLineString => simp [Geom.isSupported] at h

theorem doubleCheck_fold_spec {C P Po : Type} (env : GeoEnv C P Po)
    (db : DB C P Po) (polygon : Po) :
    ∀ (l : List ItemId) (acc : Bitmap),
      (∀ i ∈ l, ∃ g, assocGet db.items i = some g ∧ g.isSupported = true) →
      ∃ out, List.foldlM (doubleCheckStep env db polygon) acc l = .ok out ∧
        ∀ j, j ∈ out ↔ j ∈ acc ∨ (j ∈ l ∧
          ∃ g, assocGet db.items j = some g ∧ specAccept env polygon g = true) := by
  intro l
  induction l with
  | nil =>
    intro acc _
    exact ⟨acc, rfl, by simp⟩
  | cons i l ih =>
    intro acc hsup
    obtain ⟨g, hg, hgsup⟩ := hsup i (List.mem_cons_self i l)
    have hstep : doubleCheckStep env db polygon acc i =
        .ok (if specAccept env polygon g then insert i acc else acc) := by
      unfold doubleCheckStep
      rw [hg]
      dsimp only
      rw [doubleCheckAccept_supported env polygon g hgsup]
      rfl
    obtain ⟨out, hout, hmem⟩ :=
      ih (if specAccept env polygon g then insert i acc else acc)
        (fun j hj => hsup j (List.mem_cons_of_mem _ hj))
    refine ⟨out, ?_, ?_⟩
    · rw [List.foldlM_cons, hstep]
      simpa [Bind.bind, Except.bind] using hout
    · intro j
      rw [hmem j]
      by_cases hacc : specAccept env polygon g = true
      · rw [if_pos hacc]
        simp only [Finset.mem_insert, List.mem_cons]
        constructor
        · rintro ((rfl | hj) | ⟨hjl, hA⟩)
          · exact .inr ⟨.inl rfl, g, hg, hacc⟩
          · exact .inl hj
          · exact .inr ⟨.inr hjl, hA⟩
        · rintro (hj | ⟨rfl | hjl, hA⟩)
          · exact .inl (.inr hj)
          · exact .inl (.inl rfl)
          · exact .inr ⟨hjl, hA⟩
      · rw [if_neg hacc]
        simp only [List.mem_cons]
        constructor
        · rintro (hj | ⟨hjl, hA⟩)
          · exact .inl hj
          · exact .inr ⟨.inr hjl, hA⟩
        · rintro (hj | ⟨rfl | hjl, hA⟩)
          · exact .inl hj
          · obtain ⟨g', hg', hacc'⟩ := hA
            rw [hg] at hg'
            exact absurd ((Option.some.inj hg') ▸ hacc') hacc
          · exact .inr ⟨hjl, hA⟩

/-- C9 — the double-check phase subtracts the already-accepted ids from
the candidate set and then accepts each remaining id exactly when its
stored geometry passes the per-kind test against the query polygon
(point: contained; multi-point: some constituent contained; polygon:
contained or intersecting; multi-polygon: some constituent contained or
intersecting), as captured by the specification-side predicate
`specAccept`. -/
theorem double_check_phase_semantics {C P Po : Type} (env : GeoEnv C P Po)
    (db : DB C P Po) (polygon : Po) (ret dc : Bitmap)
    (hsup : ∀ i ∈ dc \ ret,
      ∃ g, assocGet db.items i = some g ∧ g.isSupported = true) :
    ∃ out, doubleCheckPhase env db polygon ret dc = .ok out ∧
      ∀ j, j ∈ out ↔ j ∈ ret ∨ (j ∈ dc ∧ j ∉ ret ∧
        ∃ g, assocGet db.items j = some g ∧ specAccept env polygon g = true) := by
  obtain ⟨out, hout, hmem⟩ := doubleCheck_fold_spec env db polygon
    (sortBitmap (dc \ ret)) ret
    (fun i hi => hsup i (mem_sortBitmap_iff.mp hi))
  refine ⟨out, hout, fun j => ?_⟩
  rw [hmem j, mem_sortBitmap_iff, Finset.mem_sdiff]
  constructor
  · rintro (hj | ⟨⟨hdc, hret⟩, hA⟩)
    · exact .inl hj
    · exact .inr ⟨hdc, hret, hA⟩
  · rintro (hj | ⟨hdc, hret, hA⟩)
    · exact .inl hj
    · exact .inr ⟨⟨hdc, hret⟩, hA⟩

/-- Witness for C9: one point item in the double-check set of the
concrete scenario environment; the query polygon does not contain the
point, so the result stays empty. -/
theorem double_check_phase_semantics_witness :
    (∀ i ∈ ({3} : Bitmap) \ (∅ : Bitmap),
      ∃ g, assocGet c9DB.items i = some g ∧ Geom.isSupported g = true) ∧
    (∃ out, doubleCheckPhase cexEnv c9DB 20 ∅ {3} = .ok out ∧
      ∀ j, j ∈ out ↔ j ∈ (∅ : Bitmap) ∨ (j ∈ ({3} : Bitmap) ∧ j ∉ (∅ : Bitmap) ∧
        ∃ g, assocGet c9DB.items j = some g ∧ specAccept cexEnv 20 g = true)) :=
  ⟨fun i hi => ⟨.point 50, by
      have : i = 3 := by simpa using hi
      subst this
      exact ⟨by decide, by decide⟩⟩,
    double_check_phase_semantics cexEnv c9DB 20 ∅ {3}
      (fun i hi => ⟨.point 50, by
        have : i = 3 := by simpa using hi
        subst this
        exact ⟨by decide, by decide⟩⟩)⟩

/-! Invariant I1: membership bitmaps only hold ids with Item records. -/

/-- The id has an `Item` record in the store. -/
def hasRecord {C P Po : Type} (db : DB C P Po) (i : ItemId) : Prop :=
  (assocGet db.items i).isSome

/-- Invariant I1 of the data model: every item-id present in any `Cell`
or `InnerShape` bitmap has a corresponding `Item` record. -/
def I1 {C P Po : Type} (db : DB C P Po) : Prop :=
  (∀ c bm, (c, bm) ∈ db.cellDb → ∀ i ∈ bm, hasRecord db i) ∧
  (∀ c bm, (c, bm) ∈ db.innerDb → ∀ i ∈ bm, hasRecord db i)

theorem foldl_invariant {α β : Type} (f : β → α → β) (P : β → Prop)
    (hf : ∀ b a, P b → P (f b a)) :
    ∀ (l : List α) (b : β), P b → P (l.foldl f b) := by
  intro l
  induction l with
  | nil => intro b hb; exact hb
  | cons a as ih => intro b hb; rw [List.foldl_cons]; exact ih _ (hf b a hb)

theorem assocGet_assocPut {κ β : Type} [DecidableEq κ]
    (l : List (κ × β)) (k' : κ) (v : β) (k : κ) :
    assocGet (assocPut l k' v) k = if k' = k then some v else assocGet l k := by
  induction l with
  | nil =>
    by_cases h : k' = k <;> simp [assocPut, assocGet, h]
  | cons hd tl ih =>
    rcases hd with ⟨k₀, v₀⟩
    by_cases h0 : k₀ = k'
    · subst h0
      by_cases h : k₀ = k <;> simp [assocPut, assocGet, h]
    · by_cases h : k' = k
      · subst h
        have : k₀ ≠ k' := h0
        simp [assocPut, h0, assocGet, this, ih]
      · simp [assocPut, h0, assocGet, ih, h]

theorem hasRecord_of_eq_items {C P Po : Type} {db db' : DB C P Po} {i : ItemId}
    (h : db'.items = db.items) (hi : hasRecord db i) : hasRecord db' i := by
  unfold hasRecord at hi ⊢
  rw [h]
  exact hi

theorem cellBitmap_records {C P Po : Type} [DecidableEq C] {db : DB C P Po}
    (h : I1 db) (cell : C) : ∀ i ∈ cellBitmap db cell, hasRecord db i := by
  unfold cellBitmap
  rcases hg : assocGet db.cellDb cell with _ | bm
  · simp
  · exact fun i hi => h.1 cell bm (assocGet_mem hg) i hi

theorem innerBitmap_records {C P Po : Type} [DecidableEq C] {db : DB C P Po}
    (h : I1 db) (cell : C) : ∀ i ∈ innerBitmap db cell, hasRecord db i := by
  unfold innerBitmap
  rcases hg : assocGet db.innerDb cell with _ | bm
  · simp
  · exact fun i hi => h.2 cell bm (assocGet_mem hg) i hi

theorem I1_withCell {C P Po : Type} [DecidableEq C] {db : DB C P Po}
    {item : ItemId} (cell : C) (h : I1 db) (hitem : hasRecord db item) :
    I1 (withCell db cell (insert item (cellBitmap db cell))) := by
  constructor
  · intro c bm hmem i hi
    rcases mem_assocPut hmem with he | he
    · obtain ⟨rfl, rfl⟩ := Prod.mk.inj he
      rcases Finset.mem_insert.mp hi with rfl | hi'
      · exact hitem
      · exact cellBitmap_records h c i hi'
    · exact h.1 c bm he i hi
  · intro c bm hmem i hi
    exact h.2 c bm hmem i hi

theorem I1_withInner {C P Po : Type} [DecidableEq C] {db : DB C P Po}
    {item : ItemId} (cell : C) (h : I1 db) (hitem : hasRecord db item) :
    I1 (withInner db cell (insert item (innerBitmap db cell))) := by
  constructor
  · intro c bm hmem i hi
    exact h.1 c bm hmem i hi
  · intro c bm hmem i hi
    rcases mem_assocPut hmem with he | he
    · obtain ⟨rfl, rfl⟩ := Prod.mk.inj he
      rcases Finset.mem_insert.mp hi with rfl | hi'
      · exact hitem
      · exact innerBitmap_records h c i hi'
    · exact h.2 c bm he i hi

theorem reEnqueueSelf_fst {C P Po : Type} (env : GeoEnv C P Po)
    {item : ItemId} {shape : Geom P Po} {nr : Nat} {es : List (Entry C P Po)}
    (h : reEnqueueSelf env item shape nr = .ok es) :
    ∀ e ∈ es, e.1 = item := by
  cases shape with
  | point p =>
    simp only [reEnqueueSelf, Except.ok.injEq] at h
    subst h
    intro e he
    simp only [List.mem_singleton] at he
    subst he
    rfl
  | polygon g =>
    simp only [reEnqueueSelf, Except.ok.injEq] at h
    subst h
    intro e he
    simp only [List.mem_map] at he
    obtain ⟨c, _, rfl⟩ := he
    rfl
  | multiPoint ps => simp [reEnqueueSelf] at h
  | multiPolygon gs => simp [reEnqueueSelf] at h
  | rect => simp [reEnqueueSelf] at h
  | triangle => simp [reEnqueueSelf] at h
  | geometryCollection => simp [reEnqueueSelf] at h
  | line => simp [reEnqueueSelf] at h
  | lineString => simp [reEnqueueSelf] at h
  | multiLineString => simp [reEnqueueSelf] at h

theorem splitOccupant_fst {C P Po : Type} (env : GeoEnv C P Po)
    {cellPoly : Po} {nr : Nat} {item : ItemId} {shape : Geom P Po}
    {es : List (Entry C P Po)}
    (h : splitOccupant env cellPoly nr item shape = .ok es) :
    ∀ e ∈ es, e.1 = item := by
  cases shape with
  | point p =>
    simp only [splitOccupant, Except.ok.injEq] at h
    subst h
    intro e he
    simp only [List.mem_singleton] at he
    subst he
    rfl
  | multiPoint ps =>
    simp only [splitOccupant, Except.ok.injEq] at h
    subst h
    intro e he
    simp only [List.mem_map] at he
    obtain ⟨p, _, rfl⟩ := he
    rfl
  | polygon g =>
    simp only [splitOccupant] at h
    split at h
    · simp only [Except.ok.injEq] at h
      subst h
      intro e he
      simp at he
    · simp only [Except.ok.injEq] at h
      subst h
      intro e he
      simp only [List.mem_map] at he
      obtain ⟨c, _, rfl⟩ := he
      rfl
  | multiPolygon gs =>
    simp only [splitOccupant, Except.ok.injEq] at h
    subst h
    intro e he
    simp only [List.mem_flatten, List.mem_map] at he
    obtain ⟨L, ⟨g, _, rfl⟩, heL⟩ := he
    by_cases hemp : (env.intersectPieces g cellPoly).isEmpty
    · simp [hemp] at heL
    · simp only [hemp, if_false, Bool.false_eq_true, List.mem_map] at heL
      obtain ⟨c, _, rfl⟩ := heL
      rfl
  | rect => simp [splitOccupant] at h
  | triangle => simp [splitOccupant] at h
  | geometryCollection => simp [splitOccupant] at h
  | line => simp [splitOccupant] at h
  | lineString => simp [splitOccupant] at h
  | multiLineString => simp [splitOccupant] at h

theorem splitOccupants_hasRecord {C P Po : Type} [DecidableEq C]
    (env : GeoEnv C P Po) {db : DB C P Po} {cellPoly : Po} {nr : Nat}
    {item : ItemId} {bm : Bitmap} {es : List (Entry C P Po)}
    (h : splitOccupants env db cellPoly nr item bm = .ok es) :
    ∀ e ∈ es, hasRecord db e.1 := by
  unfold splitOccupants at h
  refine foldlM_except_mem _ (fun e => hasRecord db e.1) ?_
    (sortBitmap bm) [] es h (by simp)
  intro acc a acc' hfa hacc
  by_cases ha : a = item
  · rw [if_pos ha] at hfa
    simp only [Except.ok.injEq] at hfa
    subst hfa
    exact hacc
  · rw [if_neg ha] at hfa
    rcases hg : assocGet db.items a with _ | shape
    · rw [hg] at hfa
      simp at hfa
    · rw [hg] at hfa
      dsimp only at hfa
      rcases hs : splitOccupant env cellPoly nr a shape with e' | es'
      · rw [hs] at hfa
        simp [Bind.bind, Except.bind] at hfa
      · rw [hs] at hfa
        simp only [Bind.bind, Except.bind, pure, Except.pure, Except.ok.injEq] at hfa
        subst hfa
        intro e he
        rcases List.mem_append.mp he with he | he
        · exact hacc e he
        · rw [splitOccupant_fst env hs e he]
          unfold hasRecord
          rw [hg]
          rfl

theorem refineStep_preserves_I1 {C P Po : Type} [DecidableEq C]
    (env : GeoEnv C P Po) (threshold : Nat) (db : DB C P Po)
    (item : ItemId) (shape : Geom P Po) (cell : C)
    (h : I1 db) (hitem : hasRecord db item) :
    I1 (refineStep env threshold db (item, shape, cell)).1 ∧
    (∀ es, (refineStep env threshold db (item, shape, cell)).2 = .ok es →
      ∀ e ∈ es, hasRecord (refineStep env threshold db (item, shape, cell)).1 e.1) := by
  have hitems := refineStep_items env threshold db (item, shape, cell)
  by_cases hcont : geomContainsPoly env shape (env.dissolve cell) = true
  · rw [refineStep_inner_eq env threshold db item shape cell hcont]
    refine ⟨I1_withInner cell h hitem, ?_⟩
    intro es hes e he
    simp only [Except.ok.injEq] at hes
    subst hes
    simp at he
  · have hcont' : geomContainsPoly env shape (env.dissolve cell) = false := by
      simpa using hcont
    rcases hsucc : resSucc (env.resolution cell) with _ | nr
    · rw [refineStep_maxres_eq env threshold db item shape cell hcont' hsucc]
      refine ⟨I1_withCell cell h hitem, ?_⟩
      intro es hes e he
      simp only [Except.ok.injEq] at hes
      subst hes
      simp at he
    · by_cases hcard : threshold ≤ (insert item (cellBitmap db cell)).card
      · by_cases halready : threshold ≤ (cellBitmap db cell).card
        · rw [refineStep_split_already_eq env threshold db item shape cell nr
            hcont' hsucc hcard halready]
          refine ⟨I1_withCell cell h hitem, ?_⟩
          intro es hes e he
          rw [reEnqueueSelf_fst env hes e he]
          exact hasRecord_of_eq_items (by rfl) hitem
        · rw [refineStep_split_fresh_eq env threshold db item shape cell nr
            hcont' hsucc hcard (Nat.not_le.mp halready)]
          refine ⟨I1_withCell cell h hitem, ?_⟩
          intro es hes e he
          dsimp only at hes
          rcases hse : reEnqueueSelf env item shape nr with e' | se
          · rw [hse] at hes
            simp [Except.bind] at hes
          · rw [hse] at hes
            rcases hsp : splitOccupants env
                (withCell db cell (insert item (cellBitmap db cell)))
                (env.dissolve cell) nr item
                (insert item (cellBitmap db cell)) with e' | sp
            · rw [hsp] at hes
              simp [Except.bind, Except.map] at hes
            · rw [hsp] at hes
              simp only [Except.bind, Except.map, Except.ok.injEq] at hes
              subst hes
              rcases List.mem_append.mp he with he' | he'
              · rw [reEnqueueSelf_fst env hse e he']
                exact hasRecord_of_eq_items (by rfl) hitem
              · exact splitOccupants_hasRecord env hsp e he'
      · rw [refineStep_below_eq env threshold db item shape cell nr
          hcont' hsucc (Nat.not_le.mp hcard)]
        refine ⟨I1_withCell cell h hitem, ?_⟩
        intro es hes e he
        simp only [Except.ok.injEq] at hes
        subst hes
        simp at he

theorem refineLoop_preserves_I1 {C P Po : Type} [DecidableEq C]
    (env : GeoEnv C P Po) (threshold : Nat) :
    ∀ (fuel : Nat) (db : DB C P Po) (queue : List (Entry C P Po))
      (db' : DB C P Po) (err : Option RustError),
      I1 db → (∀ e ∈ queue, hasRecord db e.1) →
      refineLoop env threshold fuel db queue = some (db', err) →
      I1 db' := by
  intro fuel
  induction fuel with
  | zero =>
    intro db queue db' err h1 hq h
    cases queue with
    | nil =>
      simp only [refineLoop, Option.some.injEq, Prod.mk.injEq] at h
      rw [← h.1]
      exact h1
    | cons e rest => simp [refineLoop] at h
  | succ n ih =>
    intro db queue db' err h1 hq h
    cases queue with
    | nil =>
      simp only [refineLoop, Option.some.injEq, Prod.mk.injEq] at h
      rw [← h.1]
      exact h1
    | cons e rest =>
      rcases e with ⟨i, s, c⟩
      have hstep := refineStep_preserves_I1 env threshold db i s c h1
        (hq (i, s, c) (List.mem_cons_self _ _))
      have hitems := refineStep_items env threshold db (i, s, c)
      simp only [refineLoop] at h
      rcases hr : refineStep env threshold db (i, s, c) with ⟨db₁, res⟩
      rw [hr] at h hstep hitems
      cases res with
      | error err' =>
        simp only [Option.some.injEq, Prod.mk.injEq] at h
        rw [← h.1]
        exact hstep.1
      | ok newEntries =>
        refine ih db₁ (rest ++ newEntries) db' err hstep.1 ?_ h
        intro e' he'
        rcases List.mem_append.mp he' with he' | he'
        · exact hasRecord_of_eq_items hitems
            (hq e' (List.mem_cons_of_mem _ he'))
        · exact hstep.2 newEntries rfl e' he'

theorem explodePolygon_preserves_I1 {C P Po : Type} [DecidableEq C]
    (env : GeoEnv C P Po) (db : DB C P Po) (item : ItemId) (g : Po)
    (h : I1 db) (hitem : hasRecord db item) :
    I1 (explodePolygon env db item g).1 ∧
    (∀ e ∈ (explodePolygon env db item g).2, e.1 = item) := by
  have main :
      (fun st : DB C P Po × List (Entry C P Po) =>
        I1 st.1 ∧ st.1.items = db.items ∧ ∀ e ∈ st.2, e.1 = item)
        (explodePolygon env db item g) := by
    unfold explodePolygon
    refine foldl_invariant _
      (fun st : DB C P Po × List (Entry C P Po) =>
        I1 st.1 ∧ st.1.items = db.items ∧ ∀ e ∈ st.2, e.1 = item)
      ?_ _ _ ⟨h, rfl, by simp⟩
    intro st cell hst
    dsimp only
    split
    · refine ⟨?_, hst.2.1, hst.2.2⟩
      have hrec : hasRecord st.1 item :=
        hasRecord_of_eq_items hst.2.1 hitem
      exact I1_withInner cell hst.1 hrec
    · refine ⟨hst.1, hst.2.1, ?_⟩
      intro e he
      rcases List.mem_append.mp he with he | he
      · exact hst.2.2 e he
      · simp only [List.mem_singleton] at he
        subst he
        rfl
  exact ⟨main.1, main.2.2⟩

theorem explodeLevelZeroGeo_preserves_I1 {C P Po : Type} [DecidableEq C]
    (env : GeoEnv C P Po) (db : DB C P Po) (item : ItemId) (geo : Geom P Po)
    (h : I1 db) (hitem : hasRecord db item) :
    I1 (explodeLevelZeroGeo env db item geo).1 ∧
    (∀ es, (explodeLevelZeroGeo env db item geo).2 = .ok es →
      ∀ e ∈ es, e.1 = item) := by
  cases geo with
  | point p =>
    refine ⟨h, ?_⟩
    intro es hes e he
    simp only [explodeLevelZeroGeo, Except.ok.injEq] at hes
    subst hes
    simp only [List.mem_singleton] at he
    subst he
    rfl
  | multiPoint ps =>
    refine ⟨h, ?_⟩
    intro es hes e he
    simp only [explodeLevelZeroGeo, Except.ok.injEq] at hes
    subst hes
    simp only [List.mem_map] at he
    obtain ⟨p, _, rfl⟩ := he
    rfl
  | polygon g =>
    have hp := explodePolygon_preserves_I1 env db item g h hitem
    refine ⟨by simpa [explodeLevelZeroGeo] using hp.1, ?_⟩
    intro es hes e he
    simp only [explodeLevelZeroGeo, Except.ok.injEq] at hes
    subst hes
    exact hp.2 e he
  | multiPolygon gs =>
    have main :
        (fun st : DB C P Po × List (Entry C P Po) =>
          I1 st.1 ∧ st.1.items = db.items ∧ ∀ e ∈ st.2, e.1 = item)
          (gs.foldl
            (fun st g =>
              let st' := explodePolygon env st.1 item g
              (st'.1, st.2 ++ st'.2))
            (db, ([] : List (Entry C P Po)))) := by
      refine foldl_invariant _
        (fun st : DB C P Po × List (Entry C P Po) =>
          I1 st.1 ∧ st.1.items = db.items ∧ ∀ e ∈ st.2, e.1 = item)
        ?_ _ _ ⟨h, rfl, by simp⟩
      intro st g hst
      dsimp only
      have hrec : hasRecord st.1 item := hasRecord_of_eq_items hst.2.1 hitem
      have hp := explodePolygon_preserves_I1 env st.1 item g hst.1 hrec
      have hpi := explodePolygon_items env st.1 item g
      refine ⟨hp.1, by rw [hpi]; exact hst.2.1, ?_⟩
      intro e he
      rcases List.mem_append.mp he with he | he
      · exact hst.2.2 e he
      · exact hp.2 e he
    refine ⟨main.1, ?_⟩
    intro es hes e he
    simp only [explodeLevelZeroGeo, Except.ok.injEq] at hes
    subst hes
    exact main.2.2 e he
  | rect => exact ⟨h, fun es hes => by simp [explodeLevelZeroGeo] at hes⟩
  | triangle => exact ⟨h, fun es hes => by simp [explodeLevelZeroGeo] at hes⟩
  | geometryCollection =>
    exact ⟨h, fun es hes => by simp [explodeLevelZeroGeo] at hes⟩
  | line => exact ⟨h, fun es hes => by simp [explodeLevelZeroGeo] at hes⟩
  | lineString => exact ⟨h, fun es hes => by simp [explodeLevelZeroGeo] at hes⟩
  | multiLineString =>
    exact ⟨h, fun es hes => by simp [explodeLevelZeroGeo] at hes⟩

/-- C5 — Invariant I1 is preserved by every `add_item` call, whether it
completes or aborts in a panic: in the reached state every item-id in
any `Cell` or `InnerShape` bitmap has an `Item` record, and the `Item`
record for the inserted id is present — it is written before any
cell-membership write, so it is there in every partial state the call
can leave behind. -/
theorem addItem_preserves_I1 {C P Po : Type} [DecidableEq C]
    (env : GeoEnv C P Po) (threshold fuel : Nat) (db db' : DB C P Po)
    (item : ItemId) (geo : Geom P Po) (err : Option RustError)
    (h1 : I1 db)
    (h : addItem env threshold fuel db item geo = some (db', err)) :
    I1 db' ∧ itemLookup db' item = some geo := by
  have hget : assocGet (assocPut db.items item geo) item = some geo :=
    assocGet_assocPut_self _ _ _
  have h1' : I1 { db with items := assocPut db.items item geo } := by
    constructor
    · intro c bm hmem i hi
      have := h1.1 c bm hmem i hi
      unfold hasRecord at this ⊢
      dsimp only
      rw [assocGet_assocPut]
      split
      · rfl
      · exact this
    · intro c bm hmem i hi
      have := h1.2 c bm hmem i hi
      unfold hasRecord at this ⊢
      dsimp only
      rw [assocGet_assocPut]
      split
      · rfl
      · exact this
  have hrec : hasRecord { db with items := assocPut db.items item geo } item := by
    unfold hasRecord
    dsimp only
    rw [hget]
    rfl
  simp only [addItem] at h
  rcases hex : explodeLevelZeroGeo env
      { db with items := assocPut db.items item geo } item geo with ⟨db₂, res⟩
  rw [hex] at h
  have hexi := explodeLevelZeroGeo_items env
    { db with items := assocPut db.items item geo } item geo
  rw [hex] at hexi
  have hexI1 := explodeLevelZeroGeo_preserves_I1 env
    { db with items := assocPut db.items item geo } item geo h1' hrec
  rw [hex] at hexI1
  cases res with
  | error e =>
    simp only [Option.some.injEq, Prod.mk.injEq] at h
    rw [← h.1]
    refine ⟨hexI1.1, ?_⟩
    unfold itemLookup
    rw [hexi]
    exact hget
  | ok entries =>
    have hq : ∀ e ∈ entries, hasRecord db₂ e.1 := by
      intro e he
      rw [hexI1.2 entries rfl e he]
      exact hasRecord_of_eq_items hexi hrec
    have hloopI1 := refineLoop_preserves_I1 env threshold fuel db₂ entries db' err
      hexI1.1 hq h
    have hloopItems := refineLoop_items env threshold fuel db₂ entries db' err h
    refine ⟨hloopI1, ?_⟩
    unfold itemLookup
    rw [hloopItems, hexi]
    exact hget

/-- Witness for C5: inserting the concrete polygon item into the empty
store, which trivially satisfies I1. -/
theorem addItem_preserves_I1_witness :
    I1 (emptyDB Nat Nat Nat) ∧
    addItem cexEnv 200 16 (emptyDB Nat Nat Nat) 1 (.polygon 10) =
      some (cexDB, none) ∧
    (I1 cexDB ∧ itemLookup cexDB 1 = some (.polygon 10)) :=
  ⟨⟨by simp [emptyDB], by simp [emptyDB]⟩, by decide,
    addItem_preserves_I1 cexEnv 200 16 (emptyDB Nat Nat Nat) cexDB 1
      (.polygon 10) none ⟨by simp [emptyDB], by simp [emptyDB]⟩ (by decide)⟩

/-- C2 — The in-shape traversal does not visit `InnerShape(c)` for the
dequeued cell `c`: in the reachable state `cexDB`, cell 0 holds item 1
in its `InnerShape` record, the query dequeues cell 0 (the trace shows
it processed as `NotPresentInDB`), yet item 1 is not in the returned
set, contradicting the unconditional acceptance the claim describes. -/
theorem inner_shape_not_visited_by_query :
    assocGet cexDB.innerDb 0 = some ({1} : Finset Nat) ∧
    inShape cexEnv 200 16 cexDB 20 = some (.ok (∅, [(.notPresentInDB, 0)])) ∧
    (1 : ItemId) ∉ (∅ : Finset ItemId) := by
  refine ⟨by decide, by decide, by decide⟩

end Cellulite
